import Mathlib

/-!
Shallow embedding of the client-side form engine of this repository
(static/js/main.js and its second source variant), covering: dynamic
component-row creation (addComponentRow) together with the property
schema read from the components-table header, form persistence
(saveData / loadSavedData), the blur value-restore guard
(restoreLastValue), the resizable-input wrapper (makeInputResizable),
and the load-time specification-table field rules.
-/

/-- A named text input: models the name and value attributes of an HTML
input element. -/
structure Input where
  name : String
  value : String
deriving DecidableEq

/-- Document state seen by addComponentRow: the component table body
(list of rows, each row being the list of its inputs, one per cell) when
the element with id components-tbody exists, and the last header row of
the components table (raw textContent of each header cell) when such a
row exists. -/
structure DocState where
  tbody : Option (List (List Input))
  header : Option (List String)
deriving DecidableEq

/-- Result of one addComponentRow invocation: the document afterwards,
whether console.error was called, and whether the success message was
shown. -/
structure AddResult where
  doc : DocState
  errorLogged : Bool
  success : Bool
deriving DecidableEq

/-- Whitespace characters stripped by the JS trim method (the ASCII
subset, which covers every label occurring in the tables). -/
def isJsWhitespace (c : Char) : Bool :=
  c == ' ' || c == '\t' || c == '\n' || c == '\r' || c == '\x0b' || c == '\x0c'

/-- The JS String.prototype.trim method: strips leading and trailing
whitespace. -/
def jsTrim (s : String) : String :=
  ⟨((s.data.dropWhile isJsWhitespace).reverse.dropWhile isJsWhitespace).reverse⟩

/-- Models Array.prototype.findIndex over the header cells with the
predicate comparing the trimmed cell text to the anchor label Cost:
index of the first matching cell, none when there is no match. -/
def findCostIdx : List String → Option Nat
  | [] => none
  | c :: rest => if jsTrim c = "Cost" then some 0 else (findCostIdx rest).map (· + 1)

/-- The ordered property schema read from a header row: every cell label
strictly after the Cost anchor, trimmed; none when the anchor is
missing. -/
def readPropertyHeaders (cells : List String) : Option (List String) :=
  match findCostIdx cells with
  | none => none
  | some i => some ((cells.drop (i + 1)).map jsTrim)

/-- Default value given to a new property input, from the rules inside
addComponentRow. -/
def propertyDefault (p : String) : String :=
  if p ∈ ["SUL", "ARO", "BEN", "OXY", "OLEFIN"] then ""
  else if p ∈ ["RON", "MON"] then "inf"
  else "0"

/-- The inputs of one freshly built component row, in document order:
the two identity inputs, the four fixed numeric inputs, then one input
per schema property. -/
def newRowInputs (tag nm : String) (props : List String) : List Input :=
  [⟨"component_" ++ tag ++ "_name", tag⟩,
   ⟨"component_" ++ tag ++ "_tag", nm⟩,
   ⟨"component_" ++ tag ++ "_min_comp", "0"⟩,
   ⟨"component_" ++ tag ++ "_availability", "0"⟩,
   ⟨"component_" ++ tag ++ "_factor", "1"⟩,
   ⟨"component_" ++ tag ++ "_cost", "25.00"⟩] ++
  props.map (fun p => ⟨"component_" ++ tag ++ "_property_" ++ p, propertyDefault p⟩)

/-- One invocation of addComponentRow on the given document state. When
the body is missing it logs and returns; when the header row exists but
holds no Cost anchor it logs and returns; when the header row itself is
missing the propertyHeaders array simply stays empty and the row is
still appended. -/
def addComponentRow (st : DocState) : AddResult :=
  match st.tbody with
  | none => ⟨st, true, false⟩
  | some rows =>
    let props? : Option (List String) :=
      match st.header with
      | none => some []
      | some cells => readPropertyHeaders cells
    match props? with
    | none => ⟨st, true, false⟩
    | some props =>
      let tag := "NC" ++ toString (rows.length + 1)
      let nm := "NewComponent" ++ toString (rows.length + 1)
      ⟨⟨some (rows ++ [newRowInputs tag nm props]), st.header⟩, false, true⟩

/-- One assignment into the snapshot object built by saveData: a JS
object keeps the first-insertion position of an existing key and
overwrites its value, and appends a new key at the end. -/
def insertPair (m : List (String × String)) (k v : String) : List (String × String) :=
  if k ∈ m.map Prod.fst then m.map (fun q => if q.1 = k then (k, v) else q)
  else m ++ [(k, v)]

/-- saveData: folds every named field of the form, in document order,
into the flat snapshot object written to localStorage. -/
def saveData (form : List Input) : List (String × String) :=
  form.foldl (fun m inp => insertPair m inp.name inp.value) []

/-- Writing one snapshot entry back into the form: querySelector finds
the first field with the given name and its value is set; nothing
happens when no field matches. -/
def setFirst (form : List Input) (k v : String) : List Input :=
  match form with
  | [] => []
  | inp :: rest => if inp.name = k then ⟨inp.name, v⟩ :: rest else inp :: setFirst rest k v

/-- Applying a parsed snapshot to the form, entry by entry in object key
order. -/
def applySnapshot (snap : List (String × String)) (form : List Input) : List Input :=
  snap.foldl (fun f kv => setFirst f kv.1 kv.2) form

/-- First value stored under a key in a snapshot. -/
def lookupKey : List (String × String) → String → Option String
  | [], _ => none
  | (k, v) :: rest, n => if n = k then some v else lookupKey rest n

/-- Result of loadSavedData: the form afterwards, whether the stored
entry was removed (localStorage.removeItem inside the catch block), and
whether the restore success message was shown. -/
structure LoadResult where
  form : List Input
  removedKey : Bool
  restored : Bool
deriving DecidableEq

/-- loadSavedData, with JSON.parse abstracted as a function returning
none exactly when parsing throws. getItem yields null (modelled none)
when no entry exists, otherwise the stored string; the source then
guards the whole restore block with JS truthiness - if (savedData) - so
both a missing entry and a stored empty string (the one falsy string)
skip parsing entirely. A non-empty stored string is parsed: on success
the snapshot is applied and the restore message shown, and on a parse
failure the error is logged, the stored entry is removed and the form
is left untouched. -/
def loadSavedData (parse : String → Option (List (String × String)))
    (stored : Option String) (form : List Input) : LoadResult :=
  match stored with
  | none => ⟨form, false, false⟩
  | some s =>
    if s = "" then ⟨form, false, false⟩
    else
      match parse s with
      | none => ⟨form, true, false⟩
      | some data => ⟨applySnapshot data form, false, true⟩

/-- Event on a guarded input: the user editing the field to a given
text, or the field losing focus. -/
inductive GEvent where
  | edit : String → GEvent
  | blur : GEvent
deriving DecidableEq

/-- State of one guarded input: the current field value and the captured
last-known value of restoreLastValue. -/
structure GuardState where
  fieldValue : String
  lastValue : String
deriving DecidableEq

/-- One event step of a field guarded by restoreLastValue: edits change
the field; on blur an all-blank value is replaced by the last-known
value, otherwise the last-known value becomes the trimmed current
value. -/
def guardStep (st : GuardState) : GEvent → GuardState
  | GEvent.edit s => { st with fieldValue := s }
  | GEvent.blur =>
    if jsTrim st.fieldValue = "" then { st with fieldValue := st.lastValue }
    else { st with lastValue := jsTrim st.fieldValue }

/-- Running a guarded input from its value at guard-attachment time
through a sequence of events. -/
def guardRun (v0 : String) (evs : List GEvent) : GuardState :=
  evs.foldl guardStep ⟨v0, v0⟩

/-- An element, abstracted to its class list. -/
structure Elem where
  classes : List String
deriving DecidableEq

/-- An input together with its ancestor chain (nearest ancestor first)
and its own class list. -/
structure InputCtx where
  ancestors : List Elem
  classes : List String
deriving DecidableEq

/-- True for elements carrying the resizable-input-container class. Each
container created by the wrapper holds exactly one resize handle, so
counting container ancestors counts container/handle pairs. -/
def isContainer (e : Elem) : Bool := e.classes.contains "resizable-input-container"

/-- Number of wrapping container/handle pairs around the input. -/
def containerCount (c : InputCtx) : Nat := (c.ancestors.filter isContainer).length

/-- The wrapping step shared by both source variants: a new container
div becomes the parent of the input (the old parent its grandparent),
the handle is appended inside the container, and the input gains the
resizable-input class (classList.add never duplicates a class). -/
def wrapResizable (c : InputCtx) : InputCtx :=
  { ancestors := Elem.mk ["resizable-input-container"] :: c.ancestors,
    classes :=
      if c.classes.contains "resizable-input" then c.classes
      else c.classes ++ ["resizable-input"] }

/-- makeInputResizable as written in static/js/main.js: it wraps
unconditionally, with no check for an existing wrapper. -/
def makeInputResizable (c : InputCtx) : InputCtx := wrapResizable c

/-- makeInputResizable as written in the second source variant: a call
on an input whose closest lookup finds a container (the input itself or
some ancestor carries the class) returns immediately. -/
def makeInputResizableGuarded (c : InputCtx) : InputCtx :=
  if c.classes.contains "resizable-input-container" || c.ancestors.any isContainer then c
  else wrapResizable c

/-- A min or max bound input of the specification table: value, the
readOnly flag, and whether the locked style classes were added. -/
structure BoundInput where
  value : String
  readOnly : Bool
  locked : Bool
deriving DecidableEq

/-- One specification-table row: the text of its first cell (the
property name) and the min-bound and max-bound inputs of the row. -/
structure SpecRow where
  firstCellText : String
  minInputs : List BoundInput
  maxInputs : List BoundInput
deriving DecidableEq

/-- The per-property rule applied to one specification row at load time:
the switch in static/js/main.js, equivalently the fieldRules table of
the second source variant. -/
def applyFieldRule (row : SpecRow) : SpecRow :=
  if jsTrim row.firstCellText = "SUL" ∨ jsTrim row.firstCellText = "ARO" ∨
     jsTrim row.firstCellText = "BEN" ∨ jsTrim row.firstCellText = "OXY" ∨
     jsTrim row.firstCellText = "OLEFIN" then
    { row with minInputs :=
        row.minInputs.map (fun i => { i with value := "", readOnly := true, locked := true }) }
  else if jsTrim row.firstCellText = "RVP" then
    { row with minInputs := row.minInputs.map (fun i => { i with value := "0" }) }
  else if jsTrim row.firstCellText = "RON" ∨ jsTrim row.firstCellText = "MON" then
    { row with maxInputs :=
        row.maxInputs.map (fun i => { i with value := "inf", readOnly := true, locked := true }) }
  else row

/-- The load-time pass over every specification-table row. -/
def applySpecRules (rows : List SpecRow) : List SpecRow := rows.map applyFieldRule

/-! Helper lemmas shared by several theorems. -/

/-- Appending a row and taking the last element of the body gives that
row back. -/
theorem getLastD_append_singleton {α : Type} (l : List α) (x : α) :
    ∀ d, (l ++ [x]).getLastD d = x := by
  induction l with
  | nil => intro d; rfl
  | cons a t ih => intro d; rw [List.cons_append, List.getLastD_cons]; exact ih a

/-- findIndex misses when no header cell trims to the anchor label. -/
theorem findCostIdx_eq_none (cells : List String) (h : ∀ c ∈ cells, jsTrim c ≠ "Cost") :
    findCostIdx cells = none := by
  induction cells with
  | nil => rfl
  | cons a t ih =>
    simp [findCostIdx, h a (List.mem_cons_self a t),
      ih (fun c hc => h c (List.mem_cons_of_mem a hc))]

/-- Unfolding one successful addComponentRow invocation: anchor found at
index i, so the row built from the schema after the anchor is appended
and no error is logged. -/
theorem addComponentRow_found (rows : List (List Input)) (cells : List String) (i : Nat)
    (h : findCostIdx cells = some i) :
    addComponentRow ⟨some rows, some cells⟩ =
      ⟨⟨some (rows ++ [newRowInputs ("NC" ++ toString (rows.length + 1))
          ("NewComponent" ++ toString (rows.length + 1))
          ((cells.drop (i + 1)).map jsTrim)]), some cells⟩, false, true⟩ := by
  simp [addComponentRow, readPropertyHeaders, h]

/-- The source membership tests of the default rules, written out as
plain disjunctions of string equations. -/
theorem propertyDefault_eq (p : String) :
    propertyDefault p =
      if p = "SUL" ∨ p = "ARO" ∨ p = "BEN" ∨ p = "OXY" ∨ p = "OLEFIN" then ""
      else if p = "RON" ∨ p = "MON" then "inf" else "0" := by
  simp [propertyDefault, List.mem_cons, List.mem_singleton]

/-! Claim C1. -/

/-- Claim C1: for every property schema read from the table header,
after one invocation of addComponentRow the newly appended row carries
exactly the named inputs of the six fixed suffixes followed by one input
named component_tag_property_p for each schema property p, in schema
order, and no other named inputs; the rows already present are left
unchanged. -/
theorem addComponentRow_fieldNames (rows : List (List Input)) (cells : List String) (i : Nat)
    (h : findCostIdx cells = some i) :
    (((addComponentRow ⟨some rows, some cells⟩).doc.tbody.getD []).getLastD []).map Input.name
        = ["component_" ++ ("NC" ++ toString (rows.length + 1)) ++ "_name",
           "component_" ++ ("NC" ++ toString (rows.length + 1)) ++ "_tag",
           "component_" ++ ("NC" ++ toString (rows.length + 1)) ++ "_min_comp",
           "component_" ++ ("NC" ++ toString (rows.length + 1)) ++ "_availability",
           "component_" ++ ("NC" ++ toString (rows.length + 1)) ++ "_factor",
           "component_" ++ ("NC" ++ toString (rows.length + 1)) ++ "_cost"] ++
          ((cells.drop (i + 1)).map jsTrim).map
            (fun p => "component_" ++ ("NC" ++ toString (rows.length + 1)) ++ "_property_" ++ p) ∧
    ((addComponentRow ⟨some rows, some cells⟩).doc.tbody.getD []).dropLast = rows := by
  rw [addComponentRow_found rows cells i h]
  constructor
  · simp only [Option.getD_some, newRowInputs, getLastD_append_singleton, List.map_append,
      List.map_map, List.map_cons, List.map_nil]
    rfl
  · simp

/-- Witness for the C1 theorem at the concrete schema with the single
property RON on an empty table body. -/
theorem addComponentRow_fieldNames_witness :
    (((addComponentRow ⟨some [], some ["Cost", "RON"]⟩).doc.tbody.getD []).getLastD []).map Input.name
        = ["component_NC1_name", "component_NC1_tag", "component_NC1_min_comp",
           "component_NC1_availability", "component_NC1_factor", "component_NC1_cost"] ++
          ["component_NC1_property_RON"] ∧
    ((addComponentRow ⟨some [], some ["Cost", "RON"]⟩).doc.tbody.getD []).dropLast = [] :=
  addComponentRow_fieldNames [] ["Cost", "RON"] 0 (by decide)

/-! Claim C2. -/

/-- Claim C2: the row appended by addComponentRow to a body holding N
rows gets tag NC(N+1) and display name NewComponent(N+1), fixed defaults
0 / 0 / 1 / 25.00 for min_comp, availability, factor and cost, and each
property input defaulted by class: SUL, ARO, BEN, OXY and OLEFIN to the
empty string, RON and MON to the literal inf, every other property
to 0. -/
theorem addComponentRow_defaults (rows : List (List Input)) (cells : List String) (i : Nat)
    (h : findCostIdx cells = some i) :
    ((addComponentRow ⟨some rows, some cells⟩).doc.tbody.getD []).getLastD []
      = [⟨"component_" ++ ("NC" ++ toString (rows.length + 1)) ++ "_name",
          "NC" ++ toString (rows.length + 1)⟩,
         ⟨"component_" ++ ("NC" ++ toString (rows.length + 1)) ++ "_tag",
          "NewComponent" ++ toString (rows.length + 1)⟩,
         ⟨"component_" ++ ("NC" ++ toString (rows.length + 1)) ++ "_min_comp", "0"⟩,
         ⟨"component_" ++ ("NC" ++ toString (rows.length + 1)) ++ "_availability", "0"⟩,
         ⟨"component_" ++ ("NC" ++ toString (rows.length + 1)) ++ "_factor", "1"⟩,
         ⟨"component_" ++ ("NC" ++ toString (rows.length + 1)) ++ "_cost", "25.00"⟩] ++
        ((cells.drop (i + 1)).map jsTrim).map (fun p =>
          ⟨"component_" ++ ("NC" ++ toString (rows.length + 1)) ++ "_property_" ++ p,
           if p = "SUL" ∨ p = "ARO" ∨ p = "BEN" ∨ p = "OXY" ∨ p = "OLEFIN" then ""
           else if p = "RON" ∨ p = "MON" then "inf"
           else "0"⟩) := by
  rw [addComponentRow_found rows cells i h]
  simp [newRowInputs, getLastD_append_singleton, propertyDefault_eq]

/-- Witness for the C2 theorem at the scenario of the specification:
schema SUL, RON, OCT on an empty table. -/
theorem addComponentRow_defaults_witness :
    ((addComponentRow ⟨some [], some ["Cost", "SUL", "RON", "OCT"]⟩).doc.tbody.getD []).getLastD []
      = [⟨"component_NC1_name", "NC1"⟩,
         ⟨"component_NC1_tag", "NewComponent1"⟩,
         ⟨"component_NC1_min_comp", "0"⟩,
         ⟨"component_NC1_availability", "0"⟩,
         ⟨"component_NC1_factor", "1"⟩,
         ⟨"component_NC1_cost", "25.00"⟩] ++
        [⟨"component_NC1_property_SUL", ""⟩,
         ⟨"component_NC1_property_RON", "inf"⟩,
         ⟨"component_NC1_property_OCT", "0"⟩] :=
  addComponentRow_defaults [] ["Cost", "SUL", "RON", "OCT"] 0 (by decide)

/-! Claim C3. -/

/-- Claim C3 counterexample: a document whose components table body
exists but whose header row is absent altogether has no header cell at
all, hence no header cell whose trimmed text equals Cost; the claim then
demands that addComponentRow abort, yet the code only aborts when a
header row exists and misses the anchor: here it logs nothing and
appends a row carrying only the six fixed fields. -/
theorem addComponentRow_noHeader_appends :
    (addComponentRow ⟨some [], none⟩).errorLogged = false ∧
    (addComponentRow ⟨some [], none⟩).doc.tbody =
      some [[⟨"component_NC1_name", "NC1"⟩, ⟨"component_NC1_tag", "NewComponent1"⟩,
             ⟨"component_NC1_min_comp", "0"⟩, ⟨"component_NC1_availability", "0"⟩,
             ⟨"component_NC1_factor", "1"⟩, ⟨"component_NC1_cost", "25.00"⟩]] := by
  constructor <;> rfl

/-- Claim C3 (amended): whenever the header row exists and none of its
cells trims to the anchor label Cost, addComponentRow aborts before
mutating the table body - the document is returned unchanged, no row is
appended - and a diagnostic is logged. -/
theorem addComponentRow_missingCost_aborts (rows : List (List Input)) (cells : List String)
    (h : ∀ c ∈ cells, jsTrim c ≠ "Cost") :
    addComponentRow ⟨some rows, some cells⟩ = ⟨⟨some rows, some cells⟩, true, false⟩ := by
  simp [addComponentRow, readPropertyHeaders, findCostIdx_eq_none cells h]

/-- Witness for the amended C3 theorem at a concrete header with no
anchor column. -/
theorem addComponentRow_missingCost_aborts_witness :
    addComponentRow ⟨some [], some ["Name", "Tag"]⟩ =
      ⟨⟨some [], some ["Name", "Tag"]⟩, true, false⟩ :=
  addComponentRow_missingCost_aborts [] ["Name", "Tag"] (by decide)

/-! Claim C7. -/

/-- Claim C7 counterexample: a first invocation on an empty body under
the header Cost, A appends a row whose property field follows A; after
the header changes to Cost, B, the second invocation appends a row whose
property field follows B - not the list read the first time, which the
claim as stated would require. -/
theorem addComponentRow_schema_reread :
    (((addComponentRow ⟨some [], some ["Cost", "A"]⟩).doc.tbody.getD []).getLastD []).map Input.name
        = ["component_NC1_name", "component_NC1_tag", "component_NC1_min_comp",
           "component_NC1_availability", "component_NC1_factor", "component_NC1_cost",
           "component_NC1_property_A"] ∧
    (((addComponentRow ⟨(addComponentRow ⟨some [], some ["Cost", "A"]⟩).doc.tbody,
          some ["Cost", "B"]⟩).doc.tbody.getD []).getLastD []).map Input.name
        = ["component_NC2_name", "component_NC2_tag", "component_NC2_min_comp",
           "component_NC2_availability", "component_NC2_factor", "component_NC2_cost",
           "component_NC2_property_B"] := by
  constructor <;> rfl

/-- Claim C7 (amended): the property schema is re-derived from the live
header on every invocation of addComponentRow; the property fields of
each appended row are exactly those of the header as it stands at call
time, so an intervening header change does change the fields of
subsequently added rows. -/
theorem addComponentRow_uses_current_header (rows : List (List Input)) (cells : List String)
    (i : Nat) (h : findCostIdx cells = some i) :
    (((addComponentRow ⟨some rows, some cells⟩).doc.tbody.getD []).getLastD []).drop 6
      = ((cells.drop (i + 1)).map jsTrim).map (fun p =>
          ⟨"component_" ++ ("NC" ++ toString (rows.length + 1)) ++ "_property_" ++ p,
           propertyDefault p⟩) := by
  rw [addComponentRow_found rows cells i h]
  simp only [Option.getD_some, getLastD_append_singleton]
  rfl

/-- Witness for the amended C7 theorem at the header Cost, B over one
existing row. -/
theorem addComponentRow_uses_current_header_witness :
    (((addComponentRow ⟨some [[]], some ["Cost", "B"]⟩).doc.tbody.getD []).getLastD []).drop 6
      = [⟨"component_NC2_property_B", "0"⟩] :=
  addComponentRow_uses_current_header [[]] ["Cost", "B"] 0 (by decide)

/-! Claim C10. -/

/-- Claim C10: in every row created by addComponentRow the identity
suffixes are swapped relative to their contents - the first input, named
with suffix _name, holds the tag string NC(N+1), while the second input,
named with suffix _tag, holds the display name NewComponent(N+1). -/
theorem addComponentRow_identity_swapped (rows : List (List Input)) (cells : List String)
    (i : Nat) (h : findCostIdx cells = some i) :
    (((addComponentRow ⟨some rows, some cells⟩).doc.tbody.getD []).getLastD [])[0]?
        = some ⟨"component_" ++ ("NC" ++ toString (rows.length + 1)) ++ "_name",
                "NC" ++ toString (rows.length + 1)⟩ ∧
    (((addComponentRow ⟨some rows, some cells⟩).doc.tbody.getD []).getLastD [])[1]?
        = some ⟨"component_" ++ ("NC" ++ toString (rows.length + 1)) ++ "_tag",
                "NewComponent" ++ toString (rows.length + 1)⟩ := by
  rw [addComponentRow_found rows cells i h]
  simp only [Option.getD_some, getLastD_append_singleton]
  constructor <;> rfl

/-- Witness for the C10 theorem on an empty table: the input named
component_NC1_name holds NC1 and the input named component_NC1_tag holds
NewComponent1. -/
theorem addComponentRow_identity_swapped_witness :
    (((addComponentRow ⟨some [], some ["Cost"]⟩).doc.tbody.getD []).getLastD [])[0]?
        = some ⟨"component_NC1_name", "NC1"⟩ ∧
    (((addComponentRow ⟨some [], some ["Cost"]⟩).doc.tbody.getD []).getLastD [])[1]?
        = some ⟨"component_NC1_tag", "NewComponent1"⟩ :=
  addComponentRow_identity_swapped [] ["Cost"] 0 (by decide)

/-! Claim C6. -/

/-- Claim C6 counterexample: the empty string is a stored snapshot
string on which JSON.parse throws (modelled by a parse function
rejecting every input), yet the truthiness guard of the source - if
(savedData) - is false for it, so the whole restore block is skipped:
no value is applied but also no removal happens, leaving removedKey
false and the entry still in storage, against the claimed purge. -/
theorem loadSavedData_empty_not_removed :
    loadSavedData (fun _ => none) (some "") [⟨"a", "1"⟩]
      = ⟨[⟨"a", "1"⟩], false, false⟩ := by
  rfl

/-- Claim C6 (amended): for every non-empty stored snapshot string on
which JSON.parse throws, loadSavedData applies no field value at all
(the parse happens before the write loop, so failure is atomic),
removes the stored entry under the fixed key, shows no restore message,
and - being a total function here - returns normally instead of
throwing; apart from the removal it behaves exactly as when no prior
data existed. A stored empty string never reaches the parser: the
truthiness guard skips it, applying nothing and removing nothing. -/
theorem loadSavedData_corrupt (parse : String → Option (List (String × String)))
    (s : String) (form : List Input) (h1 : s ≠ "") (h2 : parse s = none) :
    loadSavedData parse (some s) form = ⟨form, true, false⟩ ∧
    (loadSavedData parse (some s) form).form = (loadSavedData parse none form).form := by
  simp [loadSavedData, h1, h2]

/-- Witness for the amended C6 theorem with a non-empty stored text and
a parse function rejecting it. -/
theorem loadSavedData_corrupt_witness :
    loadSavedData (fun _ => none) (some "not json") [⟨"a", "1"⟩] = ⟨[⟨"a", "1"⟩], true, false⟩ ∧
    (loadSavedData (fun _ => none) (some "not json") [⟨"a", "1"⟩]).form
      = (loadSavedData (fun _ => none) none [⟨"a", "1"⟩]).form :=
  loadSavedData_corrupt (fun _ => none) "not json" [⟨"a", "1"⟩] (by decide) rfl

/-! Claim C8. -/

/-- Claim C8 counterexample: makeInputResizable as written in
static/js/main.js has no already-wrapped check, so a second call on the
same input wraps it again - two container/handle pairs, not one, and the
second call is not a no-op. -/
theorem makeInputResizable_not_idempotent :
    containerCount (makeInputResizable (makeInputResizable ⟨[], []⟩)) = 2 ∧
    makeInputResizable (makeInputResizable ⟨[], []⟩) ≠ makeInputResizable ⟨[], []⟩ := by
  constructor
  · rfl
  · decide

/-- Claim C8 (amended): only the second source variant of
makeInputResizable checks for an existing wrapper; that variant is
idempotent - a repeated call returns the same state - and one call on an
unwrapped input (no container around it nor the container class on the
input itself) yields exactly one container/handle pair; the main.js
variant wraps unconditionally and stacks a new container on every
call. -/
theorem makeInputResizableGuarded_idempotent (c : InputCtx) :
    makeInputResizableGuarded (makeInputResizableGuarded c) = makeInputResizableGuarded c ∧
    (c.classes.contains "resizable-input-container" = false →
      containerCount c = 0 →
      containerCount (makeInputResizableGuarded c) = 1) := by
  constructor
  · by_cases hb : (c.classes.contains "resizable-input-container"
        || c.ancestors.any isContainer) = true
    · have h1 : makeInputResizableGuarded c = c := by
        unfold makeInputResizableGuarded
        rw [if_pos hb]
      rw [h1]
      exact h1
    · have h1 : makeInputResizableGuarded c = wrapResizable c := by
        unfold makeInputResizableGuarded
        rw [if_neg hb]
      have h2 : ((wrapResizable c).classes.contains "resizable-input-container"
          || (wrapResizable c).ancestors.any isContainer) = true := by
        have ha : (wrapResizable c).ancestors.any isContainer = true := by
          unfold wrapResizable
          rw [List.any_cons]
          rw [show isContainer (Elem.mk ["resizable-input-container"]) = true from rfl]
          rw [Bool.true_or]
        rw [ha, Bool.or_true]
      rw [h1]
      unfold makeInputResizableGuarded
      rw [if_pos h2]
  · intro hcls hcnt
    have hanc : c.ancestors.any isContainer = false := by
      by_contra hx
      rw [Bool.not_eq_false, List.any_eq_true] at hx
      obtain ⟨e, he, hce⟩ := hx
      have hmem : e ∈ c.ancestors.filter isContainer := List.mem_filter.mpr ⟨he, hce⟩
      have hne : c.ancestors.filter isContainer ≠ [] := List.ne_nil_of_mem hmem
      exact hne (List.length_eq_zero.mp hcnt)
    have hb2 : ¬((c.classes.contains "resizable-input-container"
        || c.ancestors.any isContainer) = true) := by
      rw [hcls, hanc]
      decide
    have hg : makeInputResizableGuarded c = wrapResizable c := by
      unfold makeInputResizableGuarded
      rw [if_neg hb2]
    have hstep : containerCount (wrapResizable c) = containerCount c + 1 := by
      unfold containerCount wrapResizable
      rw [List.filter_cons]
      rw [show isContainer (Elem.mk ["resizable-input-container"]) = true from rfl]
      simp
    rw [hg, hstep, hcnt]

/-- Witness for the amended C8 theorem on a bare unwrapped input. -/
theorem makeInputResizableGuarded_idempotent_witness :
    makeInputResizableGuarded (makeInputResizableGuarded ⟨[], []⟩)
        = makeInputResizableGuarded ⟨[], []⟩ ∧
    containerCount (makeInputResizableGuarded ⟨[], []⟩) = 1 :=
  ⟨(makeInputResizableGuarded_idempotent ⟨[], []⟩).1,
   (makeInputResizableGuarded_idempotent ⟨[], []⟩).2 rfl rfl⟩

/-! Claim C9. -/

/-- Claim C9: at load time each specification row receives exactly the
effect of its matching rule class and nothing else - the SUL, ARO, BEN,
OXY, OLEFIN class empties and locks the min-bound inputs leaving the
max-bound inputs alone; RVP sets the min-bound inputs to 0 without
touching their readOnly state nor the max-bound inputs; RON and MON set
the max-bound inputs to inf and lock them leaving the min-bound inputs
alone; an unlisted property leaves the row untouched; and since the pass
is an independent per-row map, processing any permutation of the rows
yields the permuted results. -/
theorem specFieldRules_apply (row : SpecRow) (rows1 rows2 : List SpecRow)
    (hperm : rows1.Perm rows2) :
    ((jsTrim row.firstCellText = "SUL" ∨ jsTrim row.firstCellText = "ARO" ∨
      jsTrim row.firstCellText = "BEN" ∨ jsTrim row.firstCellText = "OXY" ∨
      jsTrim row.firstCellText = "OLEFIN") →
      (applyFieldRule row).minInputs = row.minInputs.map (fun _ => ⟨"", true, true⟩) ∧
      (applyFieldRule row).maxInputs = row.maxInputs) ∧
    (jsTrim row.firstCellText = "RVP" →
      (applyFieldRule row).minInputs = row.minInputs.map (fun i => ⟨"0", i.readOnly, i.locked⟩) ∧
      (applyFieldRule row).maxInputs = row.maxInputs) ∧
    ((jsTrim row.firstCellText = "RON" ∨ jsTrim row.firstCellText = "MON") →
      (applyFieldRule row).maxInputs = row.maxInputs.map (fun _ => ⟨"inf", true, true⟩) ∧
      (applyFieldRule row).minInputs = row.minInputs) ∧
    (jsTrim row.firstCellText ∉
        (["SUL", "ARO", "BEN", "OXY", "OLEFIN", "RVP", "RON", "MON"] : List String) →
      applyFieldRule row = row) ∧
    (applySpecRules rows1).Perm (applySpecRules rows2) := by
  refine ⟨?_, ?_, ?_, ?_, hperm.map applyFieldRule⟩
  · intro h5
    unfold applyFieldRule
    rw [if_pos h5]
    exact ⟨rfl, rfl⟩
  · intro h
    have c1 : ¬(jsTrim row.firstCellText = "SUL" ∨ jsTrim row.firstCellText = "ARO" ∨
        jsTrim row.firstCellText = "BEN" ∨ jsTrim row.firstCellText = "OXY" ∨
        jsTrim row.firstCellText = "OLEFIN") := by
      rw [h]
      decide
    unfold applyFieldRule
    rw [if_neg c1, if_pos h]
    exact ⟨rfl, rfl⟩
  · intro h
    have c1 : ¬(jsTrim row.firstCellText = "SUL" ∨ jsTrim row.firstCellText = "ARO" ∨
        jsTrim row.firstCellText = "BEN" ∨ jsTrim row.firstCellText = "OXY" ∨
        jsTrim row.firstCellText = "OLEFIN") := by
      rcases h with h | h <;> rw [h] <;> decide
    have c2 : ¬(jsTrim row.firstCellText = "RVP") := by
      rcases h with h | h <;> rw [h] <;> decide
    unfold applyFieldRule
    rw [if_neg c1, if_neg c2, if_pos h]
    exact ⟨rfl, rfl⟩
  · intro h
    simp only [List.mem_cons, List.not_mem_nil, or_false, not_or] at h
    obtain ⟨n1, n2, n3, n4, n5, n6, n7, n8⟩ := h
    have c1 : ¬(jsTrim row.firstCellText = "SUL" ∨ jsTrim row.firstCellText = "ARO" ∨
        jsTrim row.firstCellText = "BEN" ∨ jsTrim row.firstCellText = "OXY" ∨
        jsTrim row.firstCellText = "OLEFIN") := by
      simp [n1, n2, n3, n4, n5]
    have c2 : ¬(jsTrim row.firstCellText = "RVP") := n6
    have c3 : ¬(jsTrim row.firstCellText = "RON" ∨ jsTrim row.firstCellText = "MON") := by
      simp [n7, n8]
    unfold applyFieldRule
    rw [if_neg c1, if_neg c2, if_neg c3]

/-- Witness for the C9 theorem at a SUL row carrying one min and one max
bound input. -/
theorem specFieldRules_apply_witness :
    (applyFieldRule ⟨"SUL", [⟨"5", false, false⟩], [⟨"9", false, false⟩]⟩).minInputs
        = [⟨"", true, true⟩] ∧
    (applyFieldRule ⟨"SUL", [⟨"5", false, false⟩], [⟨"9", false, false⟩]⟩).maxInputs
        = [⟨"9", false, false⟩] := by
  have h := (specFieldRules_apply ⟨"SUL", [⟨"5", false, false⟩], [⟨"9", false, false⟩]⟩
      [] [] (List.Perm.refl [])).1 (by decide)
  exact ⟨h.1, h.2⟩

/-! Claim C4. Lemmas about saveData and applySnapshot. -/

/-- Folding insertPair over fields with pairwise distinct names, none of
which is already a key of the accumulator, appends the field pairs in
order. -/
theorem saveData_go (form : List Input) : ∀ m : List (String × String),
    (form.map Input.name).Nodup →
    (∀ i ∈ form, i.name ∉ m.map Prod.fst) →
    form.foldl (fun acc inp => insertPair acc inp.name inp.value) m
      = m ++ form.map (fun i => (i.name, i.value)) := by
  induction form with
  | nil =>
    intro m _ _
    simp
  | cons a t ih =>
    intro m hnd hdisj
    rw [List.map_cons] at hnd
    obtain ⟨hna, hnt⟩ := List.nodup_cons.mp hnd
    have h1 : insertPair m a.name a.value = m ++ [(a.name, a.value)] := by
      unfold insertPair
      rw [if_neg (hdisj a (List.mem_cons_self a t))]
    have hdisj2 : ∀ i ∈ t, i.name ∉ (m ++ [(a.name, a.value)]).map Prod.fst := by
      intro i hi
      rw [List.map_append]
      intro hmem
      rcases List.mem_append.mp hmem with hm | hm
      · exact hdisj i (List.mem_cons_of_mem a hi) hm
      · have he : i.name = a.name := by simpa using hm
        exact hna (he ▸ List.mem_map_of_mem Input.name hi)
    calc List.foldl (fun acc inp => insertPair acc inp.name inp.value) m (a :: t)
        = List.foldl (fun acc inp => insertPair acc inp.name inp.value)
            (m ++ [(a.name, a.value)]) t := by
          simp only [List.foldl_cons]
          rw [h1]
      _ = (m ++ [(a.name, a.value)]) ++ t.map (fun i => (i.name, i.value)) := ih _ hnt hdisj2
      _ = m ++ (a :: t).map (fun i => (i.name, i.value)) := by simp

/-- On a form with pairwise distinct field names, saveData is exactly
the ordered list of name and value pairs. -/
theorem saveData_nodup (form : List Input) (h : (form.map Input.name).Nodup) :
    saveData form = form.map (fun i => (i.name, i.value)) := by
  have := saveData_go form [] h (by simp)
  simpa [saveData] using this

/-- On a form with pairwise distinct field names, setting the first
field with a given name rewrites exactly the fields of that name. -/
theorem setFirst_eq_map (form : List Input) (k v : String)
    (h : (form.map Input.name).Nodup) :
    setFirst form k v = form.map (fun i => if i.name = k then ⟨i.name, v⟩ else i) := by
  induction form with
  | nil => rfl
  | cons a t ih =>
    rw [List.map_cons] at h
    obtain ⟨hna, hnt⟩ := List.nodup_cons.mp h
    by_cases hk : a.name = k
    · unfold setFirst
      rw [if_pos hk, List.map_cons, if_pos hk]
      congr 1
      symm
      have hfix : ∀ i ∈ t, (if i.name = k then (⟨i.name, v⟩ : Input) else i) = i := by
        intro i hi
        rw [if_neg]
        intro hik
        apply hna
        rw [hk, ← hik]
        exact List.mem_map_of_mem Input.name hi
      calc t.map (fun i => if i.name = k then (⟨i.name, v⟩ : Input) else i)
          = t.map id := List.map_congr_left hfix
        _ = t := List.map_id t
    · unfold setFirst
      rw [if_neg hk, List.map_cons, if_neg hk]
      congr 1
      exact ih hnt

/-- Unfolding lookupKey over a cons cell. -/
theorem lookupKey_cons (k v n : String) (rest : List (String × String)) :
    lookupKey ((k, v) :: rest) n = if n = k then some v else lookupKey rest n := rfl

/-- Looking up a key absent from a snapshot yields nothing. -/
theorem lookupKey_not_mem (snap : List (String × String)) (n : String)
    (h : n ∉ snap.map Prod.fst) : lookupKey snap n = none := by
  induction snap with
  | nil => rfl
  | cons q rest ih =>
    obtain ⟨k, v⟩ := q
    have h1 : n ≠ k := by
      intro he
      apply h
      rw [List.map_cons, he]
      exact List.mem_cons_self _ _
    have h2 : n ∉ rest.map Prod.fst := by
      intro hm
      apply h
      rw [List.map_cons]
      exact List.mem_cons_of_mem _ hm
    unfold lookupKey
    rw [if_neg h1]
    exact ih h2

/-- Applying a snapshot with pairwise distinct keys to a form with
pairwise distinct field names rewrites every field whose name is a key
to the stored value and leaves every other field alone; entries with no
matching field have no effect. -/
theorem applySnapshot_eq_map (snap : List (String × String)) :
    ∀ form : List Input, (form.map Input.name).Nodup → (snap.map Prod.fst).Nodup →
    applySnapshot snap form
      = form.map (fun i => ⟨i.name, (lookupKey snap i.name).getD i.value⟩) := by
  induction snap with
  | nil =>
    intro form _ _
    unfold applySnapshot
    rw [List.foldl_nil]
    symm
    calc form.map (fun i => (⟨i.name, (lookupKey [] i.name).getD i.value⟩ : Input))
        = form.map id := List.map_congr_left (fun i _ => rfl)
      _ = form := List.map_id form
  | cons q rest ih =>
    obtain ⟨k, v⟩ := q
    intro form hform hsnap
    rw [List.map_cons] at hsnap
    obtain ⟨hkr, hrest⟩ := List.nodup_cons.mp hsnap
    have hstep : applySnapshot ((k, v) :: rest) form = applySnapshot rest (setFirst form k v) :=
      rfl
    rw [hstep, setFirst_eq_map form k v hform]
    have hnames : (form.map (fun i => if i.name = k then (⟨i.name, v⟩ : Input) else i)).map
        Input.name = form.map Input.name := by
      rw [List.map_map]
      apply List.map_congr_left
      intro a _
      by_cases h : a.name = k
      · simp [Function.comp, h]
      · simp [Function.comp, h]
    rw [ih _ (by rw [hnames]; exact hform) hrest, List.map_map]
    apply List.map_congr_left
    intro a _
    by_cases h : a.name = k
    · have hnone : lookupKey rest a.name = none := by
        apply lookupKey_not_mem
        rw [h]
        exact hkr
      have hcons : lookupKey ((k, v) :: rest) a.name = some v := by
        rw [lookupKey_cons, if_pos h]
      simp only [Function.comp_apply]
      rw [if_pos h]
      simp only [hnone, hcons, Option.getD_some, Option.getD_none]
    · have hcons : lookupKey ((k, v) :: rest) a.name = lookupKey rest a.name := by
        rw [lookupKey_cons, if_neg h]
      simp only [Function.comp_apply]
      rw [if_neg h]
      simp only [hcons]

/-- Restoring the saved pairs of a form F into any form G with the same
name sequence rebuilds F itself. -/
theorem saveData_restore_aux (F : List Input) : ∀ G : List Input,
    (F.map Input.name).Nodup → G.map Input.name = F.map Input.name →
    G.map (fun i =>
        ⟨i.name, (lookupKey (F.map (fun j => (j.name, j.value))) i.name).getD i.value⟩) = F := by
  induction F with
  | nil =>
    intro G _ hG
    have hGnil : G = [] := List.map_eq_nil_iff.mp hG
    rw [hGnil]
    rfl
  | cons a t ih =>
    intro G hnd hG
    cases G with
    | nil => simp at hG
    | cons b u =>
      rw [List.map_cons, List.map_cons] at hG
      injection hG with hb hu
      rw [List.map_cons] at hnd
      obtain ⟨hna, hnt⟩ := List.nodup_cons.mp hnd
      have hhead : (⟨b.name,
          (lookupKey ((a :: t).map (fun j => (j.name, j.value))) b.name).getD b.value⟩ : Input)
          = a := by
        rw [List.map_cons]
        have hlk : lookupKey ((a.name, a.value) :: t.map (fun j => (j.name, j.value))) b.name
            = some a.value := by
          rw [lookupKey_cons, if_pos hb]
        rw [hlk, hb]
        rfl
      have htail : ∀ i ∈ u,
          (⟨i.name, (lookupKey ((a :: t).map (fun j => (j.name, j.value))) i.name).getD
              i.value⟩ : Input)
          = ⟨i.name, (lookupKey (t.map (fun j => (j.name, j.value))) i.name).getD i.value⟩ := by
        intro i hi
        have hine : i.name ≠ a.name := by
          intro he
          apply hna
          rw [← he, ← hu]
          exact List.mem_map_of_mem Input.name hi
        rw [List.map_cons, lookupKey_cons, if_neg hine]
      rw [List.map_cons]
      have hmap : u.map (fun i =>
          (⟨i.name, (lookupKey ((a :: t).map (fun j => (j.name, j.value))) i.name).getD
            i.value⟩ : Input))
          = u.map (fun i =>
            ⟨i.name, (lookupKey (t.map (fun j => (j.name, j.value))) i.name).getD i.value⟩) :=
        List.map_congr_left htail
      rw [hmap]
      rw [ih u hnt hu]
      congr 1

/-- Claim C4 counterexample: a form with two fields both named x, values
a then b, has the identical named-field set as itself; saveData keeps
only the last value b and restoring writes it into the first field, so
the round trip yields values b, b instead of a, b. -/
theorem saveData_roundtrip_duplicate_counterexample :
    applySnapshot (saveData [⟨"x", "a"⟩, ⟨"x", "b"⟩]) [⟨"x", "a"⟩, ⟨"x", "b"⟩]
      = [⟨"x", "b"⟩, ⟨"x", "b"⟩] ∧
    ([⟨"x", "b"⟩, ⟨"x", "b"⟩] : List Input) ≠ [⟨"x", "a"⟩, ⟨"x", "b"⟩] := by
  constructor
  · rfl
  · decide

/-- Claim C4 (amended): provided the field names of the saved form are
pairwise distinct, restoring its snapshot into any form with the same
name sequence reproduces every field value exactly; and applying any
snapshot with pairwise distinct keys restores each present field to its
stored value while entries naming no field of the form are skipped
without effect or error (the model is a total function). With duplicate
names - which the spec itself admits can arise from reused tags - only
the last value per name is saved and only the first field per name is
written back. -/
theorem saveData_loadSavedData_roundtrip (F G : List Input) (snap : List (String × String))
    (h1 : (F.map Input.name).Nodup) (h2 : G.map Input.name = F.map Input.name)
    (h3 : (snap.map Prod.fst).Nodup) :
    applySnapshot (saveData F) G = F ∧
    applySnapshot snap F = F.map (fun i => ⟨i.name, (lookupKey snap i.name).getD i.value⟩) := by
  constructor
  · rw [saveData_nodup F h1]
    have hGnd : (G.map Input.name).Nodup := by
      rw [h2]
      exact h1
    have hkeys : ((F.map (fun j => (j.name, j.value))).map Prod.fst).Nodup := by
      rw [List.map_map]
      have hcomp : (Prod.fst ∘ fun j : Input => (j.name, j.value)) = Input.name := rfl
      rw [hcomp]
      exact h1
    rw [applySnapshot_eq_map (F.map (fun j => (j.name, j.value))) G hGnd hkeys]
    exact saveData_restore_aux F G h1 h2
  · exact applySnapshot_eq_map snap F h1 h3

/-- Witness for the amended C4 theorem: a one-field form restored over a
changed value, plus a snapshot whose only key names no field. -/
theorem saveData_loadSavedData_roundtrip_witness :
    applySnapshot (saveData [⟨"a", "1"⟩]) [⟨"a", "2"⟩] = [⟨"a", "1"⟩] ∧
    applySnapshot [("zzz", "9")] [⟨"a", "1"⟩]
      = ([⟨"a", "1"⟩] : List Input).map (fun i =>
          ⟨i.name, (lookupKey [("zzz", "9")] i.name).getD i.value⟩) :=
  saveData_loadSavedData_roundtrip [⟨"a", "1"⟩] [⟨"a", "2"⟩] [("zzz", "9")]
    (by decide) rfl (by decide)

/-! Claim C5. Lemmas about the value-restore guard. -/

/-- No step of the guard can make a non-blank last-known value blank:
edits never touch it and a blur either keeps it or replaces it by a
trimmed value that the branch condition guarantees non-blank. -/
theorem guardStep_lastValue_ne (st : GuardState) (e : GEvent) (h : st.lastValue ≠ "") :
    (guardStep st e).lastValue ≠ "" := by
  cases e with
  | edit s => exact h
  | blur =>
    by_cases hf : jsTrim st.fieldValue = ""
    · have hg : (guardStep st GEvent.blur).lastValue = st.lastValue := by
        simp [guardStep, hf]
      rw [hg]
      exact h
    · have hg : (guardStep st GEvent.blur).lastValue = jsTrim st.fieldValue := by
        simp [guardStep, hf]
      rw [hg]
      exact hf

/-- A non-blank last-known value survives any event sequence. -/
theorem foldl_guardStep_lastValue_ne (evs : List GEvent) :
    ∀ st : GuardState, st.lastValue ≠ "" → (evs.foldl guardStep st).lastValue ≠ "" := by
  induction evs with
  | nil =>
    intro st h
    exact h
  | cons e rest ih =>
    intro st h
    exact ih (guardStep st e) (guardStep_lastValue_ne st e h)

/-- Claim C5 counterexample: a field guarded while empty, into which the
user types x (so the field held a non-empty value before the blur), then
clears, then blurs, ends the blur empty - the typed value was never
captured at a blur, so the last-known value is still the empty initial
capture and the claimed consequence fails as stated. -/
theorem restoreLastValue_counterexample :
    (guardRun "" [GEvent.edit "x"]).fieldValue = "x" ∧
    (guardRun "" [GEvent.edit "x", GEvent.edit "", GEvent.blur]).fieldValue = "" := by
  constructor <;> rfl

/-- Claim C5 (amended): at each blur the handler resets a blank-trimmed
field to the last-known value and otherwise commits the trimmed value as
last-known; consequently the field is non-empty after any blur provided
its value was non-empty when the guard was attached, or its trimmed
value was non-blank at some earlier blur - merely holding a non-empty
value between blurs does not establish the guarantee. -/
theorem restoreLastValue_no_blank (v0 : String) (evs : List GEvent)
    (h : v0 ≠ "" ∨ ∃ i, ∃ hi : i < evs.length, evs[i] = GEvent.blur ∧
        jsTrim (guardRun v0 (evs.take i)).fieldValue ≠ "") :
    (guardRun v0 (evs ++ [GEvent.blur])).fieldValue ≠ "" := by
  have hlast : (guardRun v0 evs).lastValue ≠ "" := by
    rcases h with h0 | ⟨i, hi, hblur, hne⟩
    · exact foldl_guardStep_lastValue_ne evs ⟨v0, v0⟩ h0
    · have hdec : evs.take i ++ evs[i] :: evs.drop (i + 1) = evs := by
        rw [List.getElem_cons_drop]
        exact List.take_append_drop i evs
      have hrun : guardRun v0 evs
          = (evs.drop (i + 1)).foldl guardStep
              (guardStep (guardRun v0 (evs.take i)) evs[i]) := by
        conv_lhs => rw [← hdec]
        unfold guardRun
        rw [List.foldl_append]
        rfl
      rw [hrun, hblur]
      apply foldl_guardStep_lastValue_ne
      have hg : guardStep (guardRun v0 (evs.take i)) GEvent.blur
          = { guardRun v0 (evs.take i) with
              lastValue := jsTrim (guardRun v0 (evs.take i)).fieldValue } := by
        simp [guardStep, hne]
      rw [hg]
      exact hne
  have hsplit : guardRun v0 (evs ++ [GEvent.blur]) = guardStep (guardRun v0 evs) GEvent.blur := by
    unfold guardRun
    rw [List.foldl_append]
    rfl
  rw [hsplit]
  by_cases hf : jsTrim (guardRun v0 evs).fieldValue = ""
  · have hg : guardStep (guardRun v0 evs) GEvent.blur
        = { guardRun v0 evs with fieldValue := (guardRun v0 evs).lastValue } := by
      simp [guardStep, hf]
    rw [hg]
    exact hlast
  · have hg : guardStep (guardRun v0 evs) GEvent.blur
        = { guardRun v0 evs with lastValue := jsTrim (guardRun v0 evs).fieldValue } := by
      simp [guardStep, hf]
    rw [hg]
    intro hc
    have hfv : (guardRun v0 evs).fieldValue = "" := hc
    rw [hfv] at hf
    exact hf rfl

/-- Witness for the amended C5 theorem: a guard attached on the value a
followed by one blur. -/
theorem restoreLastValue_no_blank_witness :
    (guardRun "a" ([] ++ [GEvent.blur])).fieldValue ≠ "" :=
  restoreLastValue_no_blank "a" [] (Or.inl (by decide))
